import Mathlib

/-!
Verification of the subsystem model visitor (`flatland/input/model_visitor.py`).

The visitor reduces an arpeggio parse tree bottom-up.  Each `visit_*` method is
a pure function of its already-reduced children; we embed each method as a Lean
function of the same name.  Python values flowing between the reducers are
given precise Lean types per pipeline stage; Python exceptions (IndexError,
KeyError, TypeError, AttributeError) are modelled by `Option`, with `none`
standing for a raised exception.
-/

namespace Flatland

/-- Values stored inside a navigation data dictionary (`nav_data` in
`visit_navigation`): the relationship number string, a phrase or name string,
an `(rnum, attr_ref_name)` tuple, or — in the unreachable fallback branch —
a whole string-valued dictionary such as the `class_name` reduction result. -/
inductive NavEntry where
  | str (s : String)
  | pr (a b : String)
  | sdict (entries : List (String × String))
deriving DecidableEq

/-- Values carried by Tagged Facts, the `(key, value[, is_list])` tuples
produced by the low level reducers feeding `visit_attr`: plain strings
(names, types, rnums, identifiers), the `(rnum, attr_ref_name)` pair of a
`ref_name` fact, and the `nav_data` dictionary of a `nav_rnum` fact. -/
inductive Value where
  | str (s : String)
  | pair (a b : String)
  | navDict (entries : List (String × NavEntry))
deriving DecidableEq

/-- A Tagged Fact: Python tuples `(key, value)` (is_list := false, "pack"
empty) and `(key, value, True)` (is_list := true). -/
structure Fact where
  key : String
  value : Value
  is_list : Bool
deriving DecidableEq

/-- A value slot of the `out` dictionary built by `visit_attr`: either a
scalar written by a non-list fact or a list accumulated by list facts. -/
inductive Entry where
  | scalar (v : Value)
  | vlist (vs : List Value)
deriving DecidableEq

/-- Python dictionaries are embedded as association lists that keep the first
insertion position of each key.  `dictGet` is `d[k]` / `k in d`. -/
def dictGet (k : String) : List (String × α) → Option α
  | [] => none
  | (k', v) :: rest => if k' = k then some v else dictGet k rest

/-- `d[k] = v`: update in place if the key is present, else append. -/
def dictInsert (d : List (String × α)) (k : String) (v : α) : List (String × α) :=
  match d with
  | [] => [(k, v)]
  | (k', v') :: rest => if k' = k then (k, v) :: rest else (k', v') :: dictInsert rest k v

/-- `{**d1, **d2}` / `d1 | d2`: insert every pair of `b` into `a` in order. -/
def dictUnion (a b : List (String × α)) : List (String × α) :=
  b.foldl (fun d kv => dictInsert d kv.1 kv.2) a

/-- Concatenation of a list of lists (used where the source iterates over all
children's items). -/
def flattenAll : List (List α) → List α
  | [] => []
  | l :: ls => l ++ flattenAll ls

/-- `{k: v for d in children for k, v in d.items()}`: a dict comprehension
over all children's items, later values winning, first insertion keeping key
position.  Used by `visit_class_header`, `visit_binary_rel`, `visit_metadata`. -/
def mergePairs (children : List (List (String × α))) : List (String × α) :=
  (flattenAll children).foldl (fun d kv => dictInsert d kv.1 kv.2) []

/-- Does the first character list occur at the head of the second? -/
def charsStart : List Char → List Char → Bool
  | [], _ => true
  | _ :: _, [] => false
  | a :: as, b :: bs => a == b && charsStart as bs

/-- Does the first character list occur anywhere inside the second? -/
def charsAnywhere (sub : List Char) : List Char → Bool
  | [] => charsStart sub []
  | b :: bs => charsStart sub (b :: bs) || charsAnywhere sub bs

/-- Python's `sub in s` substring test on strings. -/
def strContains (sub s : String) : Bool := charsAnywhere sub.data s.data

/-- Python's `v in container` where the container is a scalar dictionary
value: substring test on a string (a TypeError, `none`, unless both are
strings), element equality on a tuple, key lookup on a dictionary (a
TypeError if the probe is an unhashable dictionary). -/
def pyIn (v : Value) (container : Value) : Option Bool :=
  match container with
  | .str s =>
    match v with
    | .str vs => some (strContains vs s)
    | _ => none
  | .pair a b =>
    some (match v with
          | .str vs => vs == a || vs == b
          | _ => false)
  | .navDict entries =>
    match v with
    | .navDict _ => none
    | .str vs => some (entries.any (fun e => e.1 == vs))
    | .pair _ _ => some false

/-! ## Element reducers -/

/-- `visit_mult`: the literal multiplicity token, unchanged. -/
def visit_mult (text : String) : String := text

/-- `visit_icaps_name`: `''.join(children)`. -/
def visit_icaps_name (children : List String) : String := String.join children

/-- `visit_class_name`: `{'name': ''.join(children)}`. -/
def visit_class_name (children : List String) : List (String × String) :=
  [("name", String.join children)]

/-- `visit_phrase`: `''.join(children)`. -/
def visit_phrase (children : List String) : String := String.join children

/-- `visit_attr_name`: the tuple `('name', ''.join(children))`. -/
def visit_attr_name (children : List String) : Fact :=
  ⟨"name", .str (String.join children), false⟩

/-- `visit_attr_ref_name`: `''.join(children)`. -/
def visit_attr_ref_name (children : List String) : String := String.join children

/-- `visit_type_name`: the tuple `('type', ''.join(children))`. -/
def visit_type_name (children : List String) : Fact :=
  ⟨"type", .str (String.join children), false⟩

/-- `visit_ignore`: the tuple `('ignore', '!')`. -/
def visit_ignore : Fact := ⟨"ignore", .str "!", false⟩

/-- `visit_id`: `children[0]` is the identifier tag; a second child (the
constraint marker) additionally emits a `constrained_id` fact.  An empty
child list raises IndexError. -/
def visit_id (children : List String) : Option (List Fact) :=
  match children with
  | [] => none
  | c :: rest =>
    some (⟨"id", .str c, true⟩ ::
      (if (c :: rest).length = 2 then [⟨"constrained_id", .str c, true⟩] else []))

/-! ## Navigation reducers -/

/-- Children of the `relrnum` rule, addressed by rule name
(`children.results`): the required `rnum` string and the optional `union`,
`constrained` and `attr_ref_name` results. -/
structure RelrnumChildren where
  rnum : String
  union : Bool
  constrained : Bool
  attr_ref_name : Option String

/-- `visit_relrnum`. -/
def visit_relrnum (c : RelrnumChildren) : List Fact :=
  [⟨"rnum", .str c.rnum, true⟩]
  ++ (if c.union then [⟨"union_rnum", .str c.rnum, true⟩] else [])
  ++ (if c.constrained then [⟨"constrained_rnum", .str c.rnum, true⟩] else [])
  ++ (match c.attr_ref_name with
      | some n => [⟨"ref_name", .pair c.rnum n, true⟩]
      | none => [])

/-- Children of the `navigation` rule, addressed by rule name: the required
`relrnum` reduction and the optional `phrase`, `class_name` and
`attr_ref_name` reductions. -/
structure NavChildren where
  relrnum : List Fact
  phrase : Option String
  class_name : Option (List (String × String))
  attr_ref_name : Option String

/-- The first `for` loop of `visit_navigation`: scan the relrnum facts for
the first one tagged `rnum` and return its data. -/
def findRnum : List Fact → Option Value
  | [] => none
  | f :: rest => if f.key = "rnum" then some f.value else findRnum rest

/-- Storing a fact's data into `nav_data`.  A dictionary-valued datum under
the `rnum` tag cannot arise from `visit_relrnum`, so the nested-dictionary
case is unrepresentable in `NavEntry` and mapped to `none`. -/
def valueToNavEntry : Value → Option NavEntry
  | .str s => some (.str s)
  | .pair a b => some (.pr a b)
  | .navDict _ => none

/-- `visit_navigation`.  `data['name'] if 'name' in data else data` applied
to a string datum is a substring probe: when the string contains `"name"`
Python raises TypeError on the subscription, modelled by `none`; a
`class_name` dictionary is probed for its `'name'` key.  The result appends
the `nav_rnum` fact to the relrnum fact list. -/
def visit_navigation (c : NavChildren) : Option (List Fact) := do
  let nav0 ←
    match findRnum c.relrnum with
    | none => some []
    | some v => (valueToNavEntry v).map (fun e => [("rnum", e)])
  let nav1 ←
    match c.phrase with
    | none => some nav0
    | some p =>
      if strContains "name" p then none
      else some (dictInsert nav0 "phrase" (NavEntry.str p))
  let nav2 :=
    match c.class_name with
    | none => nav1
    | some d =>
      match dictGet "name" d with
      | some n => dictInsert nav1 "class" (NavEntry.str n)
      | none => dictInsert nav1 "class" (NavEntry.sdict d)
  let nav3 ←
    match c.attr_ref_name with
    | none => some nav2
    | some a =>
      if strContains "name" a then none
      else some (dictInsert nav2 "ref_name" (NavEntry.str a))
  pure (c.relrnum ++ [⟨"nav_rnum", .navDict nav3, true⟩])

/-! ## Attribute assembler -/

/-- A child of the `attr` rule: a single fact tuple (`attr_name`,
`type_name`, `ignore`) or a fact list (`id`, `relrnum`, `navigation`). -/
inductive AttrChild where
  | single (f : Fact)
  | multi (fs : List Fact)

/-- The flattening comprehension at the top of `visit_attr`:
`[i for child in children for i in (child if type(child) is list else [child])]`. -/
def flattenChildren : List AttrChild → List Fact
  | [] => []
  | .single f :: rest => f :: flattenChildren rest
  | .multi fs :: rest => fs ++ flattenChildren rest

/-- The `out` dictionary under construction in `visit_attr`. -/
abbrev AttrDict := List (String × Entry)

/-- One iteration of the `for data in data_list` loop of `visit_attr`,
acting on the pair (category, out).  A list fact meeting a scalar slot
performs Python's `value not in out[key]` membership probe and, when the
probe says absent, raises AttributeError on `out[key].append`. -/
def attrStep (st : String × AttrDict) (f : Fact) : Option (String × AttrDict) :=
  match f.is_list with
  | false =>
    if f.key = "ignore" then some ("ignore attributes", st.2)
    else some (st.1, dictInsert st.2 f.key (.scalar f.value))
  | true =>
    match dictGet f.key st.2 with
    | none => some (st.1, dictInsert st.2 f.key (.vlist [f.value]))
    | some (.vlist vs) =>
      if f.value ∈ vs then some st
      else some (st.1, dictInsert st.2 f.key (.vlist (vs ++ [f.value])))
    | some (.scalar sv) =>
      match pyIn f.value sv with
      | none => none
      | some true => some st
      | some false => none

/-- The whole fact loop of `visit_attr`, propagating a raised exception. -/
def foldAttr (st : String × AttrDict) : List Fact → Option (String × AttrDict)
  | [] => some st
  | f :: rest =>
    match attrStep st f with
    | none => none
    | some st' => foldAttr st' rest

/-- `visit_attr`: fold all facts starting from category `'attributes'` and
an empty `out`, returning the `(category, out)` pair. -/
def visit_attr (children : List AttrChild) : Option (String × AttrDict) :=
  foldAttr ("attributes", []) (flattenChildren children)

/-- One iteration of the grouping loop of `visit_attr_block`:
`if key not in out: out[key] = []` followed by `out[key].append(value)`. -/
def blockStep (out : List (String × List AttrDict)) (kv : String × AttrDict) :
    List (String × List AttrDict) :=
  match dictGet kv.1 out with
  | none => dictInsert out kv.1 [kv.2]
  | some l => dictInsert out kv.1 (l ++ [kv.2])

/-- `visit_attr_block`: group the `(category, out)` pairs of the attribute
lines into a dictionary from category to the list of `out` dictionaries. -/
def visit_attr_block (children : List (String × AttrDict)) : List (String × List AttrDict) :=
  children.foldl blockStep []

/-- The ordered sequence accumulated under a key of the `out` dictionary
(empty when the key is absent or holds a scalar). -/
def entriesUnder (out : AttrDict) (k : String) : List Value :=
  match dictGet k out with
  | some (.vlist vs) => vs
  | _ => []

/-- The list of entries grouped under a category of an attribute block
(empty when the category is absent). -/
def blockEntries (block : List (String × List AttrDict)) (c : String) : List AttrDict :=
  (dictGet c block).getD []

/-- Does the fact list contain a non-list `ignore` fact? -/
def hasIgnore (facts : List Fact) : Bool :=
  facts.any (fun f => !f.is_list && f.key == "ignore")

/-- The values of the facts carrying a given key, in source order. -/
def listValuesFor (facts : List Fact) (k : String) : List Value :=
  (facts.filter (fun f => f.key == k)).map Fact.value

/-- Modelled from the spec: one step of ordered dedup-by-first-occurrence
("append ... skipping the append if value already present"). -/
def dedupStep (acc : List Value) (v : Value) : List Value :=
  if v ∈ acc then acc else acc ++ [v]

/-- Modelled from the spec: the ordered-unique sequence obtained by
appending each value in turn unless an equal value is already present, so
the first occurrence keeps its position. -/
def dedupFirst (l : List Value) : List Value := l.foldl dedupStep []

/-! ## Relationship reducers -/

/-- Values of the relationship dictionaries: rnum / multiplicity / name
strings, one side descriptor of a binary association, and the subclass name
list of a generalization. -/
inductive RelVal where
  | str (s : String)
  | side (phrase mult cname : String)
  | classes (l : List String)
deriving DecidableEq

/-- `visit_t_side`: `{node.rule_name: {"phrase": children[0], "mult":
children[1], "cname": children[2]}}` with rule name `t_side`.  Fewer than
three children raise IndexError. -/
def visit_t_side (children : List String) : Option (List (String × RelVal)) :=
  match children with
  | p :: m :: c :: _ => some [("t_side", .side p m c)]
  | _ => none

/-- `visit_p_side`: same shape keyed by rule name `p_side`. -/
def visit_p_side (children : List String) : Option (List (String × RelVal)) :=
  match children with
  | p :: m :: c :: _ => some [("p_side", .side p m c)]
  | _ => none

/-- `visit_assoc_class`: `{"assoc_mult": children[0], "assoc_cname": children[1]}`. -/
def visit_assoc_class (children : List String) : Option (List (String × RelVal)) :=
  match children with
  | m :: c :: _ => some [("assoc_mult", .str m), ("assoc_cname", .str c)]
  | _ => none

/-- `visit_rname`: `{"rnum": children[0]}`. -/
def visit_rname (children : List String) : Option (List (String × RelVal)) :=
  match children with
  | r :: _ => some [("rnum", .str r)]
  | _ => none

/-- `visit_gen_rel`: `{"superclass": children[0], "subclasses": children[1:]}`.
An empty child list raises IndexError on `children[0]`; a lone superclass
yields an empty subclass list. -/
def visit_gen_rel (children : List String) : Option (List (String × RelVal)) :=
  match children with
  | [] => none
  | s :: rest => some [("superclass", .str s), ("subclasses", .classes rest)]

/-- `visit_binary_rel`: `{k: v for d in children for k, v in d.items()}`. -/
def visit_binary_rel (children : List (List (String × RelVal))) : List (String × RelVal) :=
  mergePairs children

/-- `visit_rel`: `{**children[0], **children[1]}`. -/
def visit_rel (rdict body : List (String × RelVal)) : List (String × RelVal) :=
  dictUnion rdict body

/-! ## Class, metadata and subsystem assembly -/

/-- Values of the class dictionary: header strings, the attribute lists of
one attribute-block category, and the unparsed method text list. -/
inductive ClassVal where
  | str (s : String)
  | cats (l : List AttrDict)
  | meths (l : List String)
deriving DecidableEq

/-- `visit_class_header`: `{k: v for d in children for k, v in d.items()}`. -/
def visit_class_header (children : List (List (String × String))) : List (String × String) :=
  mergePairs children

/-- `visit_method_block`: `{"methods": children}`. -/
def visit_method_block (children : List String) : List (String × ClassVal) :=
  [("methods", .meths children)]

/-- `visit_class_block`: `children[0] | children[1]`, then `| children[2]`
when a method block is present. -/
def visit_class_block (hdr : List (String × String)) (ablock : List (String × List AttrDict))
    (meths : Option (List String)) : List (String × ClassVal) :=
  let class_attrs :=
    dictUnion (hdr.map (fun kv => (kv.1, ClassVal.str kv.2)))
      (ablock.map (fun kv => (kv.1, ClassVal.cats kv.2)))
  match meths with
  | none => class_attrs
  | some ms => dictUnion class_attrs (visit_method_block ms)

/-- `visit_text_item`: `children[0], False`. -/
def visit_text_item (children : List String) : Option (String × Bool) :=
  match children with
  | [] => none
  | c :: _ => some (c, false)

/-- `visit_resource_item`: `''.join(children), True`. -/
def visit_resource_item (children : List String) : String × Bool :=
  (String.join children, true)

/-- `visit_item_name`: `''.join(children)`. -/
def visit_item_name (children : List String) : String := String.join children

/-- `visit_data_item`: `{children[0]: children[1]}`. -/
def visit_data_item (k : String) (v : String × Bool) : List (String × (String × Bool)) :=
  [(k, v)]

/-- `visit_metadata`: `{k: v for c in children for k, v in c.items()}`. -/
def visit_metadata (children : List (List (String × (String × Bool)))) :
    List (String × (String × Bool)) :=
  mergePairs children

/-- Modelled from the spec: the value of the last line carrying a key
("last occurrence wins"). -/
def lastWins : List (String × α) → String → Option α
  | [], _ => none
  | (k', v) :: rest, k =>
    match lastWins rest k with
    | some w => some w
    | none => if k' = k then some v else none

/-- The `visit_subsystem_header` result dictionary. -/
structure SubsysHeader where
  subsys_name : String
  abbr : Option String
  domain_name : String
deriving DecidableEq

/-- `visit_subsystem_header`: `abbr = None if len(children) == 2 else
children[1]` (IndexError on fewer than two children), name from
`children[0]`, domain from `children[-1]`. -/
def visit_subsystem_header (children : List String) : Option SubsysHeader :=
  match children with
  | c0 :: c1 :: rest =>
    some { subsys_name := c0
           abbr := if (c0 :: c1 :: rest).length = 2 then none else some c1
           domain_name := (c0 :: c1 :: rest).getLast (by simp) }
  | _ => none

/-! ## The whole reduction, composed -/

/-- The two grammar alternatives below a `rel` node. -/
inductive RelBody where
  | gen (children : List String)
  | binary (children : List (List (String × RelVal)))

/-- The already-reduced children of one `rel` node. -/
structure RelTree where
  rname_children : List String
  body : RelBody

/-- Reduce one relationship: `visit_rname` / the shape alternative /
`visit_rel`. -/
def compileRel (t : RelTree) : Option (List (String × RelVal)) := do
  let rd ← visit_rname t.rname_children
  let bd ←
    match t.body with
    | .gen cs => visit_gen_rel cs
    | .binary cs => some (visit_binary_rel cs)
  pure (visit_rel rd bd)

/-- The already-reduced children of one `class_block` node. -/
structure ClassTree where
  header : List (List (String × String))
  attrs : List (List AttrChild)
  methods : Option (List String)

/-- Reduce one class: `visit_attr` per line, `visit_attr_block`,
`visit_class_header`, `visit_class_block`. -/
def compileClass (t : ClassTree) : Option (List (String × ClassVal)) := do
  let rs ← t.attrs.mapM visit_attr
  pure (visit_class_block (visit_class_header t.header) (visit_attr_block rs) t.methods)

/-- The already-reduced children of the root `subsystem` node. -/
structure SubsystemTree where
  header : List String
  classes : List ClassTree
  rels : List RelTree
  metadata : List (String × (String × Bool))

/-- The reduced subsystem: the sections returned by `visit_subsystem`. -/
structure SubsystemResult where
  header : SubsysHeader
  classes : List (List (String × ClassVal))
  rels : List (List (String × RelVal))
  metadata : List (String × (String × Bool))
deriving DecidableEq

/-- The complete bottom-up reduction of one parse tree into a subsystem. -/
def compile (t : SubsystemTree) : Option SubsystemResult := do
  let h ← visit_subsystem_header t.header
  let cs ← t.classes.mapM compileClass
  let rs ← t.rels.mapM compileRel
  pure ⟨h, cs, rs, visit_metadata (t.metadata.map (fun kv => visit_data_item kv.1 kv.2))⟩

/-! ## Concrete example inputs -/

/-- An attribute line `Temp !`: a name fact followed by an ignore marker. -/
def exIgnoreChildren : List AttrChild :=
  [.single (visit_attr_name ["Temp"]), .single visit_ignore]

/-- The `out` dictionary assembled for `exIgnoreChildren`. -/
def exIgnoreOut : AttrDict := [("name", Entry.scalar (Value.str "Temp"))]

/-- An attribute block input with a single ignored attribute line. -/
def exIgnoreRs : List (String × AttrDict) := [("ignore attributes", exIgnoreOut)]

/-- An attribute line with a duplicated identifier marker: `Id : int {I, I2, I}`. -/
def exIdChildren : List AttrChild :=
  [.single (visit_attr_name ["Id"]), .single (visit_type_name ["int"]),
   .multi [⟨"id", .str "I", true⟩], .multi [⟨"id", .str "I2", true⟩],
   .multi [⟨"id", .str "I", true⟩]]

/-- The `out` dictionary assembled for `exIdChildren`. -/
def exIdOut : AttrDict :=
  [("name", Entry.scalar (Value.str "Id")), ("type", Entry.scalar (Value.str "int")),
   ("id", Entry.vlist [Value.str "I", Value.str "I2"])]

/-- An attribute line with a constrained identifier marker `Ic` and a plain `I2`. -/
def exConstrainedChildren : List AttrChild :=
  [.single (visit_attr_name ["Id"]),
   .multi [⟨"id", .str "I", true⟩, ⟨"constrained_id", .str "I", true⟩],
   .multi [⟨"id", .str "I2", true⟩]]

/-- The `out` dictionary assembled for `exConstrainedChildren`. -/
def exConstrainedOut : AttrDict :=
  [("name", Entry.scalar (Value.str "Id")),
   ("id", Entry.vlist [Value.str "I", Value.str "I2"]),
   ("constrained_id", Entry.vlist [Value.str "I"])]

/-- An attribute line with only a name fact: neither a type nor a reference. -/
def exNoTypeChildren : List AttrChild := [.single (visit_attr_name ["T"])]

/-- A relrnum reduction carrying only the relationship number fact. -/
def exNavRel : List Fact := [⟨"rnum", .str "R1", true⟩]

/-- A small subsystem parse tree: header, one class, one generalization,
duplicate metadata keys. -/
def exTree : SubsystemTree :=
  { header := ["S", "D"]
    classes := [{ header := [[("name", "Pet")]], attrs := [exIdChildren], methods := none }]
    rels := [{ rname_children := ["R5"], body := .gen ["Vehicle", "Car", "Truck"] }]
    metadata := [("Author", ("A1", false)), ("Author", ("A2", true))] }

/-- The subsystem reduced from `exTree`. -/
def exResult : SubsystemResult :=
  { header := ⟨"S", none, "D"⟩
    classes := [[("name", ClassVal.str "Pet"), ("attributes", ClassVal.cats [exIdOut])]]
    rels := [[("rnum", RelVal.str "R5"), ("superclass", RelVal.str "Vehicle"),
              ("subclasses", RelVal.classes ["Car", "Truck"])]]
    metadata := [("Author", ("A2", true))] }

/-! ## Dictionary lemmas -/

theorem dictGet_insert (d : List (String × α)) (k k' : String) (v : α) :
    dictGet k' (dictInsert d k v) = if k = k' then some v else dictGet k' d := by
  induction d with
  | nil => simp [dictInsert, dictGet]
  | cons kv rest ih =>
    obtain ⟨k0, v0⟩ := kv
    by_cases h0 : k0 = k
    · subst h0
      by_cases h1 : k0 = k'
      · subst h1; simp [dictInsert, dictGet]
      · simp [dictInsert, dictGet, h1]
    · by_cases h1 : k0 = k'
      · subst h1
        simp [dictInsert, dictGet, h0, ih]
        rw [if_neg (fun h => h0 h.symm)]
      · simp [dictInsert, dictGet, h0, h1, ih]

theorem dictGet_insert_self (d : List (String × α)) (k : String) (v : α) :
    dictGet k (dictInsert d k v) = some v := by
  simp [dictGet_insert]

theorem dictGet_insert_ne (d : List (String × α)) (k k' : String) (v : α) (h : k ≠ k') :
    dictGet k' (dictInsert d k v) = dictGet k' d := by
  simp [dictGet_insert, h]

theorem dictGet_foldl_insert (pairs : List (String × α)) :
    ∀ (acc : List (String × α)) (k : String),
      dictGet k (pairs.foldl (fun d kv => dictInsert d kv.1 kv.2) acc) =
        match lastWins pairs k with
        | some w => some w
        | none => dictGet k acc := by
  induction pairs with
  | nil => intro acc k; simp [lastWins]
  | cons kv rest ih =>
    intro acc k
    obtain ⟨k', v⟩ := kv
    rw [List.foldl_cons, ih]
    cases hw : lastWins rest k with
    | some w => simp [lastWins, hw]
    | none =>
      simp only [lastWins, hw, dictGet_insert]
      by_cases h1 : k' = k <;> simp [h1]

/-! ## Attribute fold lemmas -/

theorem attrStep_cases {st st' : String × AttrDict} {f : Fact}
    (h : attrStep st f = some st') :
    (f.is_list = false ∧ f.key = "ignore" ∧ st' = ("ignore attributes", st.2))
    ∨ (f.is_list = false ∧ f.key ≠ "ignore"
        ∧ st' = (st.1, dictInsert st.2 f.key (.scalar f.value)))
    ∨ (f.is_list = true ∧ dictGet f.key st.2 = none
        ∧ st' = (st.1, dictInsert st.2 f.key (.vlist [f.value])))
    ∨ (f.is_list = true ∧ ∃ vs, dictGet f.key st.2 = some (.vlist vs)
        ∧ ((f.value ∈ vs ∧ st' = st)
           ∨ (f.value ∉ vs ∧ st' = (st.1, dictInsert st.2 f.key (.vlist (vs ++ [f.value]))))))
    ∨ (f.is_list = true ∧ (∃ sv, dictGet f.key st.2 = some (.scalar sv)) ∧ st' = st) := by
  unfold attrStep at h
  cases hl : f.is_list
  · simp only [hl] at h
    by_cases hk : f.key = "ignore"
    · rw [if_pos hk] at h
      exact Or.inl ⟨rfl, hk, (Option.some.inj h).symm⟩
    · rw [if_neg hk] at h
      exact Or.inr (Or.inl ⟨rfl, hk, (Option.some.inj h).symm⟩)
  · simp only [hl] at h
    rcases hg : dictGet f.key st.2 with _ | e
    · simp only [hg] at h
      exact Or.inr (Or.inr (Or.inl ⟨rfl, rfl, (Option.some.inj h).symm⟩))
    · cases e with
      | scalar sv =>
        simp only [hg] at h
        rcases hp : pyIn f.value sv with _ | b
        · rw [hp] at h; exact Option.noConfusion h
        · cases b
          · rw [hp] at h; exact Option.noConfusion h
          · rw [hp] at h
            exact Or.inr (Or.inr (Or.inr (Or.inr ⟨rfl, ⟨sv, rfl⟩, (Option.some.inj h).symm⟩)))
      | vlist vs =>
        simp only [hg] at h
        by_cases hv : f.value ∈ vs
        · rw [if_pos hv] at h
          exact Or.inr (Or.inr (Or.inr (Or.inl
            ⟨rfl, vs, rfl, Or.inl ⟨hv, (Option.some.inj h).symm⟩⟩)))
        · rw [if_neg hv] at h
          exact Or.inr (Or.inr (Or.inr (Or.inl
            ⟨rfl, vs, rfl, Or.inr ⟨hv, (Option.some.inj h).symm⟩⟩)))

theorem attrStep_cat {st st' : String × AttrDict} {f : Fact} (h : attrStep st f = some st') :
    st'.1 = if !f.is_list && f.key == "ignore" then "ignore attributes" else st.1 := by
  rcases attrStep_cases h with ⟨hl, hk, rfl⟩ | ⟨hl, hk, rfl⟩ | ⟨hl, _, rfl⟩
    | ⟨hl, vs, hg, hc⟩ | ⟨hl, _, rfl⟩
  · simp [hl, hk]
  · simp [hl, beq_iff_eq, hk]
  · simp [hl]
  · rcases hc with ⟨_, rfl⟩ | ⟨_, rfl⟩ <;> simp [hl]
  · simp [hl]

theorem foldAttr_cat (facts : List Fact) : ∀ (st st' : String × AttrDict),
    foldAttr st facts = some st' →
    st'.1 = if hasIgnore facts then "ignore attributes" else st.1 := by
  induction facts with
  | nil =>
    intro st st' h
    simp only [foldAttr, Option.some.injEq] at h
    subst h; simp [hasIgnore]
  | cons f rest ih =>
    intro st st' h
    simp only [foldAttr] at h
    rcases hs : attrStep st f with _ | st₁ <;> rw [hs] at h
    · exact Option.noConfusion h
    · have hcat := attrStep_cat hs
      have hr := ih st₁ st' h
      rw [hr, hcat]
      have hh : hasIgnore (f :: rest) = (!f.is_list && (f.key == "ignore") || hasIgnore rest) := by
        simp [hasIgnore, List.any_cons, Bool.or_comm]
      rw [hh]
      cases hasIgnore rest <;> cases (!f.is_list && (f.key == "ignore")) <;> simp

theorem attrStep_get_ne {st st' : String × AttrDict} {f : Fact} {k : String}
    (h : attrStep st f = some st') (hk : f.key ≠ k) :
    dictGet k st'.2 = dictGet k st.2 := by
  rcases attrStep_cases h with ⟨_, _, rfl⟩ | ⟨_, _, rfl⟩ | ⟨_, _, rfl⟩
    | ⟨_, vs, hg, hc⟩ | ⟨_, _, rfl⟩
  · rfl
  · exact dictGet_insert_ne _ _ _ _ hk
  · exact dictGet_insert_ne _ _ _ _ hk
  · rcases hc with ⟨_, rfl⟩ | ⟨_, rfl⟩
    · rfl
    · exact dictGet_insert_ne _ _ _ _ hk
  · rfl

theorem foldAttr_get_ne (facts : List Fact) : ∀ (st st' : String × AttrDict) (k : String),
    foldAttr st facts = some st' → (∀ f ∈ facts, f.key ≠ k) →
    dictGet k st'.2 = dictGet k st.2 := by
  induction facts with
  | nil =>
    intro st st' k h _
    simp only [foldAttr, Option.some.injEq] at h
    subst h; rfl
  | cons f rest ih =>
    intro st st' k h hk
    simp only [foldAttr] at h
    rcases hs : attrStep st f with _ | st₁ <;> rw [hs] at h
    · exact Option.noConfusion h
    · rw [ih st₁ st' k h (fun g hg => hk g (List.mem_cons_of_mem f hg))]
      exact attrStep_get_ne hs (hk f (List.mem_cons_self f rest))

theorem entriesUnder_congr {d d' : AttrDict} {k : String}
    (h : dictGet k d = dictGet k d') : entriesUnder d k = entriesUnder d' k := by
  unfold entriesUnder; rw [h]

theorem entriesUnder_of_none {d : AttrDict} {k : String} (h : dictGet k d = none) :
    entriesUnder d k = [] := by
  unfold entriesUnder; rw [h]

theorem entriesUnder_of_vlist {d : AttrDict} {k : String} {vs : List Value}
    (h : dictGet k d = some (.vlist vs)) : entriesUnder d k = vs := by
  unfold entriesUnder; rw [h]

theorem entriesUnder_of_scalar {d : AttrDict} {k : String} {sv : Value}
    (h : dictGet k d = some (.scalar sv)) : entriesUnder d k = [] := by
  unfold entriesUnder; rw [h]

/-- The accumulated sequence under a key after the whole attribute fold: the
dedup-by-first-occurrence fold of the values of the facts carrying that key,
provided every fact under the key is list-tagged and the slot starts out as
an absent key or as an accumulated list. -/
theorem foldAttr_entries (k : String) (facts : List Fact) : ∀ (st st' : String × AttrDict),
    foldAttr st facts = some st' →
    (∀ f ∈ facts, f.key = k → f.is_list = true) →
    (dictGet k st.2 = none ∨ ∃ vs, dictGet k st.2 = some (.vlist vs)) →
    entriesUnder st'.2 k = (listValuesFor facts k).foldl dedupStep (entriesUnder st.2 k) := by
  induction facts with
  | nil =>
    intro st st' h _ _
    simp only [foldAttr, Option.some.injEq] at h
    subst h; simp [listValuesFor]
  | cons f rest ih =>
    intro st st' h hk hshape
    simp only [foldAttr] at h
    rcases hs : attrStep st f with _ | st₁ <;> rw [hs] at h
    · exact Option.noConfusion h
    · by_cases hfk : f.key = k
      · subst hfk
        have hl : f.is_list = true := hk f (List.mem_cons_self f rest) rfl
        have hvals : listValuesFor (f :: rest) f.key = f.value :: listValuesFor rest f.key := by
          simp [listValuesFor]
        rcases attrStep_cases hs with ⟨h0, _, _⟩ | ⟨h0, _, _⟩ | ⟨_, hg, hst⟩
          | ⟨_, vs, hg, hc⟩ | ⟨_, ⟨sv, hg⟩, _⟩
        · rw [h0] at hl; exact Bool.noConfusion hl
        · rw [h0] at hl; exact Bool.noConfusion hl
        · -- key absent: a fresh singleton list is created
          have e0 : entriesUnder st.2 f.key = [] := entriesUnder_of_none hg
          have e1 : entriesUnder st₁.2 f.key = [f.value] := by
            rw [hst]; exact entriesUnder_of_vlist (dictGet_insert_self _ _ _)
          have ihr := ih st₁ st' h (fun g hg' hk' => hk g (List.mem_cons_of_mem f hg') hk')
            (Or.inr ⟨[f.value], by rw [hst]; exact dictGet_insert_self _ _ _⟩)
          rw [ihr, e1, hvals, e0, List.foldl_cons]
          have : dedupStep [] f.value = [f.value] := by simp [dedupStep]
          rw [this]
        · -- key holds a list
          have e0 : entriesUnder st.2 f.key = vs := entriesUnder_of_vlist hg
          rcases hc with ⟨hv, hst⟩ | ⟨hv, hst⟩
          · have ihr := ih st₁ st' h (fun g hg' hk' => hk g (List.mem_cons_of_mem f hg') hk')
              (by rw [hst]; exact Or.inr ⟨vs, hg⟩)
            rw [ihr, hst, hvals, e0, List.foldl_cons]
            have : dedupStep vs f.value = vs := by simp [dedupStep, hv]
            rw [this]
          · have e1 : entriesUnder st₁.2 f.key = vs ++ [f.value] := by
              rw [hst]; exact entriesUnder_of_vlist (dictGet_insert_self _ _ _)
            have ihr := ih st₁ st' h (fun g hg' hk' => hk g (List.mem_cons_of_mem f hg') hk')
              (Or.inr ⟨vs ++ [f.value], by rw [hst]; exact dictGet_insert_self _ _ _⟩)
            rw [ihr, e1, hvals, e0, List.foldl_cons]
            have : dedupStep vs f.value = vs ++ [f.value] := by simp [dedupStep, hv]
            rw [this]
        · -- key holds a scalar: excluded by the shape hypothesis
          rcases hshape with h0 | ⟨vs, h0⟩ <;> rw [h0] at hg <;> cases hg
      · have hpres : dictGet k st₁.2 = dictGet k st.2 := attrStep_get_ne hs hfk
        have hvals : listValuesFor (f :: rest) k = listValuesFor rest k := by
          simp [listValuesFor, List.filter_cons, hfk]
        have ihr := ih st₁ st' h (fun g hg' hk' => hk g (List.mem_cons_of_mem f hg') hk')
          (by rw [hpres]; exact hshape)
        rw [ihr, hvals, entriesUnder_congr hpres]

theorem dedup_foldl_nodup (l : List Value) : ∀ acc : List Value,
    acc.Nodup → (l.foldl dedupStep acc).Nodup := by
  induction l with
  | nil => intro acc h; exact h
  | cons v rest ih =>
    intro acc h
    rw [List.foldl_cons]
    apply ih
    unfold dedupStep
    by_cases hv : v ∈ acc
    · rw [if_pos hv]; exact h
    · rw [if_neg hv]
      simp [List.nodup_append, h, hv]

theorem dedup_foldl_mem (l : List Value) : ∀ (acc : List Value) (v : Value),
    v ∈ l.foldl dedupStep acc ↔ v ∈ acc ∨ v ∈ l := by
  induction l with
  | nil => simp
  | cons w rest ih =>
    intro acc v
    rw [List.foldl_cons, ih]
    unfold dedupStep
    by_cases hw : w ∈ acc
    · rw [if_pos hw]
      simp only [List.mem_cons]
      constructor
      · rintro (h | h)
        · exact Or.inl h
        · exact Or.inr (Or.inr h)
      · rintro (h | h | h)
        · exact Or.inl h
        · subst h; exact Or.inl hw
        · exact Or.inr h
    · rw [if_neg hw]
      simp only [List.mem_append, List.mem_cons, List.mem_singleton]
      tauto

theorem dedupFirst_length (l : List Value) : (dedupFirst l).length = l.dedup.length := by
  have h1 : (dedupFirst l).Nodup := dedup_foldl_nodup l [] (List.nodup_nil)
  have h2 : ∀ v, v ∈ dedupFirst l ↔ v ∈ l := by
    intro v; rw [dedupFirst, dedup_foldl_mem]; simp
  have h3 : (dedupFirst l).toFinset = l.dedup.toFinset := by
    ext v; simp [List.mem_toFinset, h2, List.mem_dedup]
  have h4 := List.toFinset_card_of_nodup h1
  have h5 := List.toFinset_card_of_nodup l.nodup_dedup
  rw [← h4, ← h5, h3]

theorem attrStep_no_scalar {st st' : String × AttrDict} {f : Fact} {k : String}
    (h : attrStep st f = some st')
    (hk : f.key = k → f.is_list = true)
    (h0 : ∀ sv, dictGet k st.2 ≠ some (.scalar sv)) :
    ∀ sv, dictGet k st'.2 ≠ some (.scalar sv) := by
  by_cases hfk : f.key = k
  · subst hfk
    have hl : f.is_list = true := hk rfl
    rcases attrStep_cases h with ⟨h1, _, _⟩ | ⟨h1, _, _⟩ | ⟨_, _, hst⟩
      | ⟨_, vs, hg, hc⟩ | ⟨_, ⟨sv, hg⟩, _⟩
    · rw [h1] at hl; exact Bool.noConfusion hl
    · rw [h1] at hl; exact Bool.noConfusion hl
    · intro sv; rw [hst]; rw [dictGet_insert_self]; simp
    · rcases hc with ⟨_, hst⟩ | ⟨_, hst⟩
      · rw [hst]; exact h0
      · intro sv; rw [hst]; rw [dictGet_insert_self]; simp
    · exact absurd hg (h0 sv)
  · intro sv; rw [attrStep_get_ne h hfk]; exact h0 sv

theorem attrStep_entries_mono {st st' : String × AttrDict} {f : Fact} {k : String}
    (h : attrStep st f = some st')
    (hk : f.key = k → f.is_list = true)
    (h0 : ∀ sv, dictGet k st.2 ≠ some (.scalar sv)) :
    ∀ v, v ∈ entriesUnder st.2 k → v ∈ entriesUnder st'.2 k := by
  intro v hv
  by_cases hfk : f.key = k
  · subst hfk
    have hl : f.is_list = true := hk rfl
    rcases attrStep_cases h with ⟨h1, _, _⟩ | ⟨h1, _, _⟩ | ⟨_, hg, hst⟩
      | ⟨_, vs, hg, hc⟩ | ⟨_, ⟨sv, hg⟩, _⟩
    · rw [h1] at hl; exact Bool.noConfusion hl
    · rw [h1] at hl; exact Bool.noConfusion hl
    · rw [entriesUnder_of_none hg] at hv; exact absurd hv (List.not_mem_nil v)
    · rw [entriesUnder_of_vlist hg] at hv
      rcases hc with ⟨_, hst⟩ | ⟨_, hst⟩
      · rw [hst, entriesUnder_of_vlist hg]; exact hv
      · rw [hst, entriesUnder_of_vlist (dictGet_insert_self _ _ _)]
        exact List.mem_append_left _ hv
    · exact absurd hg (h0 sv)
  · rw [entriesUnder_congr (attrStep_get_ne h hfk)]; exact hv

theorem attrStep_fact_mem {st st' : String × AttrDict} {f : Fact}
    (h : attrStep st f = some st')
    (hl : f.is_list = true)
    (h0 : ∀ sv, dictGet f.key st.2 ≠ some (.scalar sv)) :
    f.value ∈ entriesUnder st'.2 f.key := by
  rcases attrStep_cases h with ⟨h1, _, _⟩ | ⟨h1, _, _⟩ | ⟨_, hg, hst⟩
    | ⟨_, vs, hg, hc⟩ | ⟨_, ⟨sv, hg⟩, _⟩
  · rw [h1] at hl; exact Bool.noConfusion hl
  · rw [h1] at hl; exact Bool.noConfusion hl
  · rw [hst, entriesUnder_of_vlist (dictGet_insert_self _ _ _)]
    exact List.mem_singleton_self _
  · rcases hc with ⟨hv, hst⟩ | ⟨hv, hst⟩
    · rw [hst, entriesUnder_of_vlist hg]; exact hv
    · rw [hst, entriesUnder_of_vlist (dictGet_insert_self _ _ _)]
      exact List.mem_append_right _ (List.mem_singleton_self _)
  · exact absurd hg (h0 sv)

/-- If a list fact with the key occurs among the facts (or its value is
already accumulated), the value is accumulated after the fold, provided the
key is never written as a scalar. -/
theorem foldAttr_presence (k : String) (facts : List Fact) :
    ∀ (st st' : String × AttrDict) (v : Value),
    foldAttr st facts = some st' →
    (∀ f ∈ facts, f.key = k → f.is_list = true) →
    (∀ sv, dictGet k st.2 ≠ some (.scalar sv)) →
    ((⟨k, v, true⟩ : Fact) ∈ facts ∨ v ∈ entriesUnder st.2 k) →
    v ∈ entriesUnder st'.2 k := by
  induction facts with
  | nil =>
    intro st st' v h _ _ hv
    simp only [foldAttr, Option.some.injEq] at h
    subst h
    rcases hv with hv | hv
    · exact absurd hv (List.not_mem_nil _)
    · exact hv
  | cons f rest ih =>
    intro st st' v h hk h0 hv
    simp only [foldAttr] at h
    rcases hs : attrStep st f with _ | st₁ <;> rw [hs] at h
    · exact Option.noConfusion h
    · have hk1 : f.key = k → f.is_list = true := fun hf => hk f (List.mem_cons_self f rest) hf
      have hkrest : ∀ g ∈ rest, g.key = k → g.is_list = true :=
        fun g hg => hk g (List.mem_cons_of_mem f hg)
      have h0' := attrStep_no_scalar hs hk1 h0
      apply ih st₁ st' v h hkrest h0'
      rcases hv with hv | hv
      · rcases List.mem_cons.mp hv with hv | hv
        · right
          subst hv
          exact attrStep_fact_mem hs rfl h0
        · exact Or.inl hv
      · exact Or.inr (attrStep_entries_mono hs hk1 h0 v hv)

theorem attrStep_provenance {st st' : String × AttrDict} {f : Fact} {k : String} {v : Value}
    (h : attrStep st f = some st')
    (hv : v ∈ entriesUnder st'.2 k) :
    v ∈ entriesUnder st.2 k ∨ (f.key = k ∧ f.value = v ∧ f.is_list = true) := by
  by_cases hfk : f.key = k
  · subst hfk
    rcases attrStep_cases h with ⟨h1, _, hst⟩ | ⟨h1, _, hst⟩ | ⟨hl, hg, hst⟩
      | ⟨hl, vs, hg, hc⟩ | ⟨_, ⟨sv, hg⟩, hst⟩
    · rw [hst] at hv; exact Or.inl hv
    · rw [hst, entriesUnder_of_scalar (dictGet_insert_self _ _ _)] at hv
      exact absurd hv (List.not_mem_nil v)
    · rw [hst, entriesUnder_of_vlist (dictGet_insert_self _ _ _)] at hv
      exact Or.inr ⟨rfl, (List.mem_singleton.mp hv).symm, hl⟩
    · rcases hc with ⟨_, hst⟩ | ⟨_, hst⟩
      · rw [hst] at hv; exact Or.inl hv
      · rw [hst, entriesUnder_of_vlist (dictGet_insert_self _ _ _)] at hv
        rcases List.mem_append.mp hv with hv | hv
        · rw [entriesUnder_of_vlist hg]; exact Or.inl hv
        · exact Or.inr ⟨rfl, (List.mem_singleton.mp hv).symm, hl⟩
    · rw [hst] at hv; exact Or.inl hv
  · rw [entriesUnder_congr (attrStep_get_ne h hfk)] at hv
    exact Or.inl hv

/-- Every accumulated value after the fold was already accumulated or stems
from a list fact with that key and value. -/
theorem foldAttr_provenance (k : String) (facts : List Fact) :
    ∀ (st st' : String × AttrDict) (v : Value),
    foldAttr st facts = some st' →
    v ∈ entriesUnder st'.2 k →
    v ∈ entriesUnder st.2 k ∨ ∃ f ∈ facts, f.key = k ∧ f.value = v ∧ f.is_list = true := by
  induction facts with
  | nil =>
    intro st st' v h hv
    simp only [foldAttr, Option.some.injEq] at h
    subst h; exact Or.inl hv
  | cons f rest ih =>
    intro st st' v h hv
    simp only [foldAttr] at h
    rcases hs : attrStep st f with _ | st₁ <;> rw [hs] at h
    · exact Option.noConfusion h
    · rcases ih st₁ st' v h hv with hv1 | ⟨g, hg, hgp⟩
      · rcases attrStep_provenance hs hv1 with hv0 | hf
        · exact Or.inl hv0
        · exact Or.inr ⟨f, List.mem_cons_self f rest, hf⟩
      · exact Or.inr ⟨g, List.mem_cons_of_mem f hg, hgp⟩

/-! ## Attribute block grouping lemmas -/

theorem blockEntries_step (acc : List (String × List AttrDict)) (kv : String × AttrDict)
    (c : String) :
    blockEntries (blockStep acc kv) c =
      blockEntries acc c ++ (if kv.1 = c then [kv.2] else []) := by
  unfold blockStep blockEntries
  by_cases hk : kv.1 = c
  · subst hk
    rcases hg : dictGet kv.1 acc with _ | l
    · rw [dictGet_insert_self]; simp [hg]
    · rw [dictGet_insert_self]; simp [hg]
  · rcases hg : dictGet kv.1 acc with _ | l
    · rw [dictGet_insert_ne _ _ _ _ hk]; simp [hk]
    · rw [dictGet_insert_ne _ _ _ _ hk]; simp [hk]

theorem blockEntries_foldl (rs : List (String × AttrDict)) :
    ∀ (acc : List (String × List AttrDict)) (c : String),
    blockEntries (rs.foldl blockStep acc) c =
      blockEntries acc c ++ (rs.filter (fun p => p.1 == c)).map Prod.snd := by
  induction rs with
  | nil => intro acc c; simp
  | cons kv rest ih =>
    intro acc c
    rw [List.foldl_cons, ih, blockEntries_step]
    by_cases hk : kv.1 = c
    · simp [List.filter_cons, hk]
    · simp [List.filter_cons, hk]

/-! ## Claim theorems -/

/-- Claim C1: an attribute line whose facts include a (non-list) `ignore`
fact is assembled under the `ignore attributes` category and, in the
attribute block, each assembled `out` dictionary is grouped exactly under
the category its line produced — so ignored attributes never reach the
normal `attributes` entry; a line without an `ignore` fact goes to
`attributes`. -/
theorem attr_ignore_routing (children : List AttrChild) (cat : String) (out : AttrDict)
    (rs : List (String × AttrDict)) (c : String)
    (h : visit_attr children = some (cat, out)) :
    (cat = "ignore attributes" ↔ hasIgnore (flattenChildren children) = true)
    ∧ (hasIgnore (flattenChildren children) = false → cat = "attributes")
    ∧ blockEntries (visit_attr_block rs) c = (rs.filter (fun p => p.1 == c)).map Prod.snd := by
  have hc : cat = if hasIgnore (flattenChildren children) then "ignore attributes"
      else "attributes" :=
    foldAttr_cat (flattenChildren children) _ _ h
  refine ⟨?_, ?_, ?_⟩
  · cases hi : hasIgnore (flattenChildren children)
    · rw [hi, if_neg (by simp)] at hc
      constructor
      · intro hcat; rw [hcat] at hc; exact absurd hc (by decide)
      · intro hh; exact Bool.noConfusion hh
    · rw [hi, if_pos rfl] at hc
      exact ⟨fun _ => rfl, fun _ => hc⟩
  · intro hi; rw [hi, if_neg (by simp)] at hc; exact hc
  · have hb := blockEntries_foldl rs [] c
    rw [visit_attr_block]
    rw [hb]
    rfl

/-- Witness for C1 at the concrete ignored attribute line `Temp !`. -/
theorem attr_ignore_routing_witness :
    (("ignore attributes" : String) = "ignore attributes"
      ↔ hasIgnore (flattenChildren exIgnoreChildren) = true)
    ∧ (hasIgnore (flattenChildren exIgnoreChildren) = false
        → ("ignore attributes" : String) = "attributes")
    ∧ blockEntries (visit_attr_block exIgnoreRs) "attributes"
        = (exIgnoreRs.filter (fun p => p.1 == "attributes")).map Prod.snd :=
  attr_ignore_routing exIgnoreChildren "ignore attributes" exIgnoreOut exIgnoreRs "attributes"
    (by decide)

/-- Claim C2: list-tagged facts are accumulated with value-equality dedup,
first occurrence keeping its position: the accumulated sequence under a key
equals the dedup-by-first-occurrence fold of the fact values for that key,
is duplicate-free, and its length is the number of distinct values among
the markers, regardless of duplicates in source order. -/
theorem attr_list_dedup (children : List AttrChild) (k : String) (cat : String) (out : AttrDict)
    (h : visit_attr children = some (cat, out))
    (hk : ∀ f ∈ flattenChildren children, f.key = k → f.is_list = true) :
    entriesUnder out k = dedupFirst (listValuesFor (flattenChildren children) k)
    ∧ (entriesUnder out k).Nodup
    ∧ (entriesUnder out k).length
        = (listValuesFor (flattenChildren children) k).dedup.length := by
  have he := foldAttr_entries k (flattenChildren children) _ _ h hk (Or.inl rfl)
  have he' : entriesUnder out k = dedupFirst (listValuesFor (flattenChildren children) k) := he
  refine ⟨he', ?_, ?_⟩
  · rw [he']; exact dedup_foldl_nodup _ _ List.nodup_nil
  · rw [he']; exact dedupFirst_length _

/-- Witness for C2 at the concrete line `Id : int {I, I2, I}` (three
identifier markers, two distinct). -/
theorem attr_list_dedup_witness :
    entriesUnder exIdOut "id" = dedupFirst (listValuesFor (flattenChildren exIdChildren) "id")
    ∧ (entriesUnder exIdOut "id").Nodup
    ∧ (entriesUnder exIdOut "id").length
        = (listValuesFor (flattenChildren exIdChildren) "id").dedup.length :=
  attr_list_dedup exIdChildren "id" "attributes" exIdOut (by decide) (by decide)

/-- Claim C3: in a binary relationship reduction, the `t_side` and `p_side`
entries of the merged dictionary come from the rule that produced each Side
map, not from child order: swapping the two Side children leaves both
lookups unchanged. -/
theorem binary_side_roles (p1 m1 c1 p2 m2 c2 : String) (t p : List (String × RelVal))
    (ht : visit_t_side [p1, m1, c1] = some t)
    (hp : visit_p_side [p2, m2, c2] = some p) :
    dictGet "t_side" (visit_binary_rel [t, p]) = some (RelVal.side p1 m1 c1)
    ∧ dictGet "p_side" (visit_binary_rel [t, p]) = some (RelVal.side p2 m2 c2)
    ∧ dictGet "t_side" (visit_binary_rel [p, t]) = some (RelVal.side p1 m1 c1)
    ∧ dictGet "p_side" (visit_binary_rel [p, t]) = some (RelVal.side p2 m2 c2) := by
  have ht' : t = [("t_side", RelVal.side p1 m1 c1)] := (Option.some.inj ht).symm
  have hp' : p = [("p_side", RelVal.side p2 m2 c2)] := (Option.some.inj hp).symm
  subst ht'; subst hp'
  exact ⟨rfl, rfl, rfl, rfl⟩

/-- Witness for C3 at the spec's concrete example sides. -/
theorem binary_side_roles_witness :
    dictGet "t_side" (visit_binary_rel
        [[("t_side", RelVal.side "is owner of" "1" "Owner")],
         [("p_side", RelVal.side "is owned by" "M" "Pet")]])
      = some (RelVal.side "is owner of" "1" "Owner")
    ∧ dictGet "p_side" (visit_binary_rel
        [[("t_side", RelVal.side "is owner of" "1" "Owner")],
         [("p_side", RelVal.side "is owned by" "M" "Pet")]])
      = some (RelVal.side "is owned by" "M" "Pet")
    ∧ dictGet "t_side" (visit_binary_rel
        [[("p_side", RelVal.side "is owned by" "M" "Pet")],
         [("t_side", RelVal.side "is owner of" "1" "Owner")]])
      = some (RelVal.side "is owner of" "1" "Owner")
    ∧ dictGet "p_side" (visit_binary_rel
        [[("p_side", RelVal.side "is owned by" "M" "Pet")],
         [("t_side", RelVal.side "is owner of" "1" "Owner")]])
      = some (RelVal.side "is owned by" "M" "Pet") :=
  binary_side_roles "is owner of" "1" "Owner" "is owned by" "M" "Pet" _ _ rfl rfl

/-- Counterexample for C4: an attribute line with only a name fact — no
`type` fact and no navigation facts — is assembled without any error, so no
`MissingRequiredField` structural error is reported. -/
theorem attr_missing_type_cex :
    visit_attr exNoTypeChildren = some ("attributes", [("name", Entry.scalar (Value.str "T"))])
    ∧ (∀ f ∈ flattenChildren exNoTypeChildren,
        f.key ≠ "type" ∧ f.key ≠ "nav_rnum" ∧ f.key ≠ "ref_name" ∧ f.key ≠ "rnum")
    ∧ dictGet "type" [(("name" : String), Entry.scalar (Value.str "T"))] = none := by
  decide

/-- Amended C4: attribute assembly performs no missing-field check — a line
without a `type` fact is assembled without error into an `out` dictionary
that simply has no `type` key; no type is silently defaulted. -/
theorem attr_missing_type_silent (children : List AttrChild) (cat : String) (out : AttrDict)
    (h : visit_attr children = some (cat, out))
    (ht : ∀ f ∈ flattenChildren children, f.key ≠ "type") :
    dictGet "type" out = none :=
  foldAttr_get_ne (flattenChildren children) _ _ "type" h ht

/-- Witness for the amended C4 at the concrete type-less line. -/
theorem attr_missing_type_silent_witness :
    dictGet "type" [(("name" : String), Entry.scalar (Value.str "T"))] = none :=
  attr_missing_type_silent exNoTypeChildren "attributes"
    [("name", Entry.scalar (Value.str "T"))] (by decide) (by decide)

/-- Counterexample for C5: a navigation node with zero target discriminants
(no phrase, no class name, no referenced attribute name) resolves without
any error to a nav record holding only the relationship number — no
`MalformedNavigation` structural error is reported; with all three
discriminants present it also resolves without error. -/
theorem nav_check_cex :
    visit_navigation ⟨exNavRel, none, none, none⟩
      = some [⟨"rnum", Value.str "R1", true⟩,
              ⟨"nav_rnum", Value.navDict [("rnum", NavEntry.str "R1")], true⟩]
    ∧ (visit_navigation
        ⟨exNavRel, some "is owner of", some [("name", "Owner")], some "Tag"⟩).isSome = true := by
  decide

/-- Amended C5: navigation resolution performs no discriminant check: with
zero target facts it returns the nav record containing only the
relationship number, and with all three target facts present it records all
of them side by side. -/
theorem nav_no_discriminant_check (rl : List Fact) (r p n a : String)
    (d : List (String × String))
    (hr : findRnum rl = some (Value.str r))
    (hp : strContains "name" p = false)
    (ha : strContains "name" a = false)
    (hd : dictGet "name" d = some n) :
    visit_navigation ⟨rl, none, none, none⟩
      = some (rl ++ [⟨"nav_rnum", Value.navDict [("rnum", NavEntry.str r)], true⟩])
    ∧ visit_navigation ⟨rl, some p, some d, some a⟩
      = some (rl ++ [⟨"nav_rnum", Value.navDict
          [("rnum", NavEntry.str r), ("phrase", NavEntry.str p),
           ("class", NavEntry.str n), ("ref_name", NavEntry.str a)], true⟩]) := by
  constructor
  · simp [visit_navigation, hr, valueToNavEntry]
  · simp [visit_navigation, hr, hp, ha, hd, valueToNavEntry, dictInsert]

/-- Witness for the amended C5 at concrete navigation children. -/
theorem nav_no_discriminant_check_witness :
    visit_navigation ⟨exNavRel, none, none, none⟩
      = some (exNavRel ++ [⟨"nav_rnum", Value.navDict [("rnum", NavEntry.str "R1")], true⟩])
    ∧ visit_navigation ⟨exNavRel, some "is owner of", some [("name", "Owner")], some "Tag"⟩
      = some (exNavRel ++ [⟨"nav_rnum", Value.navDict
          [("rnum", NavEntry.str "R1"), ("phrase", NavEntry.str "is owner of"),
           ("class", NavEntry.str "Owner"), ("ref_name", NavEntry.str "Tag")], true⟩]) :=
  nav_no_discriminant_check exNavRel "R1" "is owner of" "Owner" "Tag" [("name", "Owner")]
    (by decide) (by decide) (by decide) (by decide)

/-- Counterexample for C6: a generalization reduced with a superclass and
zero subclasses yields a result with an empty subclass list and no
`EmptySubclassList` structural error. -/
theorem gen_rel_empty_subclasses_cex :
    visit_gen_rel ["Vehicle"]
      = some [("superclass", RelVal.str "Vehicle"), ("subclasses", RelVal.classes [])]
    ∧ (visit_gen_rel ["Vehicle"]).isSome = true := by
  decide

/-- Amended C6: a generalization reduction takes the first child as the
superclass and the remaining children, in order, as the subclasses; no
emptiness check is made, so zero subclasses silently yield an empty list
(only a childless node fails, with IndexError). -/
theorem gen_rel_shape (s : String) (rest : List String) :
    visit_gen_rel (s :: rest)
      = some [("superclass", RelVal.str s), ("subclasses", RelVal.classes rest)]
    ∧ visit_gen_rel [] = (none : Option (List (String × RelVal))) :=
  ⟨rfl, rfl⟩

/-- Claim C7: an identifier marker reduction emits a `constrained_id` fact
only together with an `id` fact for the same value, and after attribute
assembly every value accumulated under `constrained_id` is also accumulated
under `id`. -/
theorem constrained_id_subset (cs : List String) (fs : List Fact) (g : Fact)
    (children : List AttrChild) (cat : String) (out : AttrDict) (v : Value)
    (hid : visit_id cs = some fs)
    (hg : g ∈ fs) (hgk : g.key = "constrained_id")
    (h : visit_attr children = some (cat, out))
    (hk : ∀ f ∈ flattenChildren children, f.key = "id" → f.is_list = true)
    (h2 : ∀ f ∈ flattenChildren children, f.key = "constrained_id" →
        (⟨"id", f.value, true⟩ : Fact) ∈ flattenChildren children)
    (hv : v ∈ entriesUnder out "constrained_id") :
    ((⟨"id", g.value, true⟩ : Fact) ∈ fs) ∧ v ∈ entriesUnder out "id" := by
  constructor
  · cases cs with
    | nil => exact Option.noConfusion hid
    | cons c rest =>
      have hfs : fs = ⟨"id", .str c, true⟩ ::
          (if (c :: rest).length = 2 then [⟨"constrained_id", .str c, true⟩] else []) :=
        (Option.some.inj hid).symm
      subst hfs
      rcases List.mem_cons.mp hg with rfl | hg'
      · exact absurd (show ("id" : String) = "constrained_id" from hgk) (by decide)
      · by_cases hlen : (c :: rest).length = 2
        · rw [if_pos hlen] at hg'
          have hgc : g = ⟨"constrained_id", .str c, true⟩ := List.mem_singleton.mp hg'
          subst hgc
          exact List.mem_cons_self _ _
        · rw [if_neg hlen] at hg'
          exact absurd hg' (List.not_mem_nil g)
  · rcases foldAttr_provenance "constrained_id" (flattenChildren children) _ _ v h hv with
      h0 | ⟨f, hf, hfk, hfv, _⟩
    · exact absurd h0 (List.not_mem_nil v)
    · have hidmem : (⟨"id", v, true⟩ : Fact) ∈ flattenChildren children := by
        have hm := h2 f hf hfk
        rw [hfv] at hm
        exact hm
      exact foldAttr_presence "id" (flattenChildren children) _ _ v h hk
        (fun sv hc => Option.noConfusion hc) (Or.inl hidmem)

/-- Witness for C7 at the concrete line with markers `Ic` and `I2`. -/
theorem constrained_id_subset_witness :
    ((⟨"id", Value.str "I", true⟩ : Fact) ∈
        [(⟨"id", Value.str "I", true⟩ : Fact), ⟨"constrained_id", Value.str "I", true⟩])
    ∧ Value.str "I" ∈ entriesUnder exConstrainedOut "id" :=
  constrained_id_subset ["I", "c"]
    [⟨"id", Value.str "I", true⟩, ⟨"constrained_id", Value.str "I", true⟩]
    ⟨"constrained_id", Value.str "I", true⟩
    exConstrainedChildren "attributes" exConstrainedOut (Value.str "I")
    (by decide) (by decide) (by decide) (by decide) (by decide) (by decide) (by decide)

/-- Claim C8: metadata folding keeps, for every key, the value of the last
line carrying that key, and a value is tagged as a resource exactly when it
was produced by the resource-citation reduction (`visit_resource_item` tags
`true`, `visit_text_item` tags `false`). -/
theorem metadata_last_wins (children : List (List (String × (String × Bool))))
    (k : String) (cs : List String) (c : String) (rest : List String) :
    dictGet k (visit_metadata children) = lastWins (flattenAll children) k
    ∧ (visit_resource_item cs).2 = true
    ∧ visit_text_item (c :: rest) = some (c, false) := by
  refine ⟨?_, rfl, rfl⟩
  have hm := dictGet_foldl_insert (flattenAll children) [] k
  rw [visit_metadata, mergePairs, hm]
  cases lastWins (flattenAll children) k <;> rfl

/-- Claim C9: the reduction is deterministic — it is a pure function of the
parse tree, so reducing structurally equal input twice yields structurally
equal subsystem values. -/
theorem compile_deterministic (t : SubsystemTree) (r1 r2 : Option SubsystemResult)
    (h1 : compile t = r1) (h2 : compile t = r2) : r1 = r2 := by
  rw [← h1, ← h2]

/-- Witness for C9: the concrete example tree reduces (twice) to the same
explicit subsystem value. -/
theorem compile_deterministic_witness :
    compile exTree = some exResult ∧ (some exResult : Option SubsystemResult) = some exResult :=
  ⟨by decide, compile_deterministic exTree (some exResult) (some exResult) (by decide) (by decide)⟩

/-- Claim C10: a subsystem header reduction maps the subsystem name to the
first child and the domain name to the last child; the abbreviation is the
sentinel `none` exactly when the header has two children, and otherwise it
is the second child. -/
theorem subsystem_header_fields (children : List String) (r : SubsysHeader)
    (h : visit_subsystem_header children = some r) :
    children.head? = some r.subsys_name
    ∧ children.getLast? = some r.domain_name
    ∧ (r.abbr = none ↔ children.length = 2)
    ∧ (children.length ≠ 2 → r.abbr = children[1]?) := by
  cases children with
  | nil => exact Option.noConfusion h
  | cons c0 rest =>
    cases rest with
    | nil => exact Option.noConfusion h
    | cons c1 rest2 =>
      have hr : r = { subsys_name := c0
                      abbr := if (c0 :: c1 :: rest2).length = 2 then none else some c1
                      domain_name := (c0 :: c1 :: rest2).getLast (by simp) } :=
        (Option.some.inj h).symm
      subst hr
      refine ⟨rfl, ?_, ?_, ?_⟩
      · exact List.getLast?_eq_getLast_of_ne_nil (by simp)
      · cases rest2 with
        | nil => simp
        | cons x xs =>
          have hne : (c0 :: c1 :: x :: xs).length ≠ 2 := by simp
          rw [if_neg hne]
          simp [hne]
      · cases rest2 with
        | nil => intro hne; exact absurd rfl hne
        | cons x xs =>
          intro hne
          rw [if_neg hne]
          rfl

/-- Witness for C10 at a concrete three-token header. -/
theorem subsystem_header_fields_witness :
    (["S", "SABR", "D"] : List String).head? = some "S"
    ∧ (["S", "SABR", "D"] : List String).getLast? = some "D"
    ∧ ((some "SABR" : Option String) = none ↔ (["S", "SABR", "D"] : List String).length = 2)
    ∧ ((["S", "SABR", "D"] : List String).length ≠ 2
        → (some "SABR" : Option String) = (["S", "SABR", "D"] : List String)[1]?) :=
  subsystem_header_fields ["S", "SABR", "D"] ⟨"S", some "SABR", "D"⟩ (by decide)

end Flatland
